import Mathlib

/-!
Verification of the 7days_RPC repository: a shallow embedding in Lean of the
registry, the client call engine, the service reflector, the dial logic and
the discovery / load-balanced client, together with theorems settling the
specification claims about them.  Time instants and durations are modelled as
natural numbers; Go maps are modelled as association lists; goroutine
interleavings are modelled by explicit event traces.
-/

namespace RPC

/-! ## Registry (registry package): CenterRegistry -/

/-- One entry of the registry server map: the address together with the
instant of its last heartbeat (Go field `ServerItem.start`). -/
structure ServerItem where
  addr : String
  start : Nat
deriving Repr, DecidableEq

/-- Embedding of `CenterRegistry`: the eviction timeout and the server map,
modelled as a list of entries (one per address, like a Go map). -/
structure CenterRegistry where
  timeout : Nat
  servers : List ServerItem
deriving Repr, DecidableEq

/-- The keep condition used by `CenterRegistry.getAliveServers`:
`r.timeout == 0 || server.start.Add(r.timeout).After(time.Now())`. -/
def keepAlive (timeout now : Nat) (s : ServerItem) : Bool :=
  timeout == 0 || decide (now < s.start + timeout)

/-- Embedding of `CenterRegistry.getAliveServers`: collect the addresses of
the entries satisfying the keep condition, delete every other entry from the
map, and return the collected addresses sorted ascending (`sort.Strings`). -/
def getAliveServers (r : CenterRegistry) (now : Nat) :
    List String × CenterRegistry :=
  let kept := r.servers.filter (keepAlive r.timeout now)
  (List.insertionSort (· ≤ ·) (kept.map ServerItem.addr),
   { r with servers := kept })

/-- Embedding of `CenterRegistry.putServer`: upsert the address with the
current instant as its heartbeat time. -/
def putServer (r : CenterRegistry) (addr : String) (now : Nat) :
    CenterRegistry :=
  if (r.servers.find? (fun s => s.addr == addr)).isSome then
    { r with servers :=
        r.servers.map (fun s => if s.addr == addr then { s with start := now } else s) }
  else
    { r with servers := r.servers ++ [⟨addr, now⟩] }

/-- An HTTP request to the registry, reduced to what `ServeHTTP` inspects:
the method, and for POST the `X-Myrpc-Server` header value. -/
inductive RegistryRequest where
  | get
  | post (serverHeader : String)
  | other
deriving Repr, DecidableEq

/-- The observable response of the registry handler: the `X-Myrpc-Servers`
header, if set, and the status code. -/
structure RegistryResponse where
  serversHeader : Option String
  status : Nat
deriving Repr, DecidableEq

/-- Embedding of `CenterRegistry.ServeHTTP`. -/
def serveHTTP (r : CenterRegistry) (req : RegistryRequest) (now : Nat) :
    RegistryResponse × CenterRegistry :=
  match req with
  | .get =>
      let out := getAliveServers r now
      ({ serversHeader := some (String.intercalate "," out.1), status := 200 }, out.2)
  | .post addr =>
      if addr = "" then ({ serversHeader := none, status := 500 }, r)
      else ({ serversHeader := none, status := 200 }, putServer r addr now)
  | .other => ({ serversHeader := none, status := 405 }, r)

theorem keepAlive_eq_true (timeout now : Nat) (s : ServerItem) :
    keepAlive timeout now s = true ↔ timeout = 0 ∨ now < s.start + timeout := by
  simp [keepAlive]

/-- C5: a registry GET returns exactly the addresses whose last heartbeat
plus the TTL is strictly after now (all addresses when TTL is zero), sorted
ascending; expired entries are deleted from the map, and with TTL zero the
map is left untouched. -/
theorem registry_get_returns_alive_sorted_and_evicts
    (r : CenterRegistry) (now : Nat) :
    (∀ a, a ∈ (getAliveServers r now).1 ↔
        ∃ s ∈ r.servers, s.addr = a ∧ (r.timeout = 0 ∨ now < s.start + r.timeout))
  ∧ (getAliveServers r now).1.Sorted (· ≤ ·)
  ∧ (∀ s, s ∈ (getAliveServers r now).2.servers ↔
        s ∈ r.servers ∧ (r.timeout = 0 ∨ now < s.start + r.timeout))
  ∧ (r.timeout = 0 →
        (getAliveServers r now).2 = r ∧
        (getAliveServers r now).1.Perm (r.servers.map ServerItem.addr)) := by
  refine ⟨?_, ?_, ?_, ?_⟩
  · intro a
    rw [getAliveServers]
    simp only [List.mem_insertionSort, List.mem_map,
      List.mem_filter, keepAlive_eq_true]
    constructor
    · rintro ⟨s, ⟨hs, hk⟩, rfl⟩
      exact ⟨s, hs, rfl, hk⟩
    · rintro ⟨s, hs, rfl, hk⟩
      exact ⟨s, ⟨hs, hk⟩, rfl⟩
  · exact List.sorted_insertionSort _ _
  · intro s
    rw [getAliveServers]
    simp [List.mem_filter, keepAlive_eq_true]
  · intro h0
    constructor
    · rw [getAliveServers]
      simp [List.filter_eq_self.2 (fun s _ => (keepAlive_eq_true _ _ _).2 (Or.inl h0))]
    · rw [getAliveServers]
      simp only []
      refine (List.perm_insertionSort (· ≤ ·) _).trans ?_
      rw [List.filter_eq_self.2 (fun s _ => (keepAlive_eq_true _ _ _).2 (Or.inl h0))]

/-- Closed witness for the TTL-zero arm of the GET theorem, at a concrete
registry with two entries. -/
theorem registry_get_ttl_zero_witness :
    (getAliveServers ⟨0, [⟨"b", 3⟩, ⟨"a", 1⟩]⟩ 100).2 = ⟨0, [⟨"b", 3⟩, ⟨"a", 1⟩]⟩ ∧
    (getAliveServers ⟨0, [⟨"b", 3⟩, ⟨"a", 1⟩]⟩ 100).1.Perm ["b", "a"] := by
  have h := (registry_get_returns_alive_sorted_and_evicts
    ⟨0, [⟨"b", 3⟩, ⟨"a", 1⟩]⟩ 100).2.2.2 rfl
  exact ⟨h.1, h.2⟩

/-! ## Client (client.go): Call, pending map, sequence numbers

A `Call` is one client-initiated invocation; `doneCount` is ghost state
counting the writes to its `Done` channel (each `call.done()` in the source
performs exactly one such write).  A `Client` carries the Go fields `seq`,
`pending`, `isClosed`, `isShutdown`, plus ghost lists: `completed` records
the calls removed from `pending` together with their final state,
`cancelled` the sequence numbers removed by a ctx cancellation before any
completion signal, and `assigned` the sequence numbers handed out by
`registerCall` in order.  The concurrent execution of the send path, the
receive pump, `Client.Call` cancellation and `terminateCalls` is modelled as
a trace of atomic events: each Go critical section (all of them guarded by
the client mutexes) is one event. -/

structure Call where
  seq : Nat
  err : Option String
  doneCount : Nat
deriving Repr, DecidableEq

structure Client where
  seq : Nat
  pending : List Call
  completed : List Call
  cancelled : List Nat
  assigned : List Nat
  isClosed : Bool
  isShutdown : Bool
deriving Repr, DecidableEq

/-- The state built by `NewClientCodec`: seq starts at 1, empty pending map,
both flags down. -/
def clientInit : Client :=
  { seq := 1, pending := [], completed := [], cancelled := [], assigned := [],
    isClosed := false, isShutdown := false }

/-- Embedding of `Client.removeCall`: look the call up by its sequence
number and delete that key from the pending map (Go `delete` is a no-op on a
missing key). -/
def removeCall (c : Client) (s : Nat) : Option Call × Client :=
  (c.pending.find? (fun k => k.seq == s),
   { c with pending := c.pending.filter (fun k => !(k.seq == s)) })

/-- Embedding of `Client.terminateCalls`: mark the client shut down and, for
every call still pending, set its Error to the terminating error and signal
its Done channel once.  The source iterates the map without deleting from
it, so `pending` keeps its entries. -/
def terminateCalls (c : Client) (e : String) : Client :=
  { c with isShutdown := true,
           pending := c.pending.map
             (fun k => { k with err := some e, doneCount := k.doneCount + 1 }) }

/-- Shared shape of the receive-pump and send-failure terminal paths:
remove the call with the given sequence number from pending and, when it was
there, push its updated final state (Error possibly set, Done signalled
once) onto the completed ghost list. -/
def finishCall (c : Client) (s : Nat) (upd : Call → Call) : Client :=
  match removeCall c s with
  | (none, c2) => c2
  | (some k, c2) => { c2 with completed := upd k :: c2.completed }

/-- The atomic events of a client lifetime, one per mutex-guarded critical
section of the source:
* `register` — the `registerCall` step of `send` (rejected while closed or
  shut down, in which case the client state is untouched);
* `sendWriteFail s m` — `codec.Write` failed in `send`: remove from pending,
  set Error, signal Done;
* `recvOk s` — receive pump matched a reply and read the body successfully;
* `recvErr s m` — receive pump saw a header carrying error `m`;
* `recvBodyFail s m` — receive pump failed reading the body;
* `ctxCancel s` — `Client.Call` observed ctx cancellation: `removeCall`
  only, no Done signal;
* `close` — user `Close`;
* `terminate m` — the receive pump exited with error `m` and ran
  `terminateCalls`. -/
inductive Event where
  | register
  | sendWriteFail (s : Nat) (msg : String)
  | recvOk (s : Nat)
  | recvErr (s : Nat) (msg : String)
  | recvBodyFail (s : Nat) (msg : String)
  | ctxCancel (s : Nat)
  | close
  | terminate (msg : String)
deriving Repr, DecidableEq

/-- One step of the client transition system. -/
def step (c : Client) : Event → Client
  | .register =>
      if c.isShutdown || c.isClosed then c
      else { c with pending := ⟨c.seq, none, 0⟩ :: c.pending,
                    assigned := c.assigned ++ [c.seq],
                    seq := c.seq + 1 }
  | .sendWriteFail s msg =>
      finishCall c s (fun k => ⟨k.seq, some msg, k.doneCount + 1⟩)
  | .recvOk s =>
      finishCall c s (fun k => ⟨k.seq, k.err, k.doneCount + 1⟩)
  | .recvErr s msg =>
      finishCall c s (fun k => ⟨k.seq, some msg, k.doneCount + 1⟩)
  | .recvBodyFail s msg =>
      finishCall c s (fun k => ⟨k.seq, some ("reading body " ++ msg), k.doneCount + 1⟩)
  | .ctxCancel s =>
      match removeCall c s with
      | (none, c2) => c2
      | (some k, c2) =>
          if k.doneCount = 0 then
            { c2 with completed := k :: c2.completed, cancelled := k.seq :: c2.cancelled }
          else { c2 with completed := k :: c2.completed }
  | .close => if c.isClosed then c else { c with isClosed := true }
  | .terminate msg => terminateCalls c msg

/-- Run a trace of events from a client state. -/
def run (c : Client) (es : List Event) : Client := es.foldl step c

/-- C2 counterexample: after `terminateCalls` the pending map is NOT empty —
the source iterates the map setting errors and signalling Done but never
deletes its entries. -/
theorem terminateCalls_leaves_pending_nonempty :
    (terminateCalls { clientInit with pending := [⟨1, none, 0⟩] }
      "write error").pending ≠ [] := by
  decide

/-- C2 amended: after `terminateCalls e` the client is marked shut down,
every call that was pending at entry has Error set to `e` and has been
signalled exactly once more on its Done channel — but the pending map keeps
exactly the same keys instead of becoming empty. -/
theorem terminateCalls_sets_error_and_signals (c : Client) (e : String) :
    (terminateCalls c e).isShutdown = true ∧
    (terminateCalls c e).pending.map Call.seq = c.pending.map Call.seq ∧
    (∀ k ∈ c.pending,
      (⟨k.seq, some e, k.doneCount + 1⟩ : Call) ∈ (terminateCalls c e).pending) := by
  refine ⟨rfl, ?_, ?_⟩
  · simp [terminateCalls]
  · intro k hk
    simp only [terminateCalls]
    exact List.mem_map.2 ⟨k, hk, rfl⟩

/-- Closed witness for the terminateCalls theorem at a one-call client. -/
theorem terminateCalls_sets_error_and_signals_witness :
    (⟨1, some "eof", 1⟩ : Call) ∈
      (terminateCalls { clientInit with pending := [⟨1, none, 0⟩] } "eof").pending := by
  exact (terminateCalls_sets_error_and_signals
    { clientInit with pending := [⟨1, none, 0⟩] } "eof").2.2 ⟨1, none, 0⟩ (by decide)

/-- Events emitted by the receive pump or by the sender while it owns a
registered call: after `terminateCalls` has run (the pump has exited and
`registerCall` fails fast), no further such event occurs. -/
def pumpEvent : Event → Bool
  | .recvOk _ => true
  | .recvErr _ _ => true
  | .recvBodyFail _ _ => true
  | .sendWriteFail _ _ => true
  | .terminate _ => true
  | _ => false

/-- Trace well-formedness, tracking whether `terminate` has already
happened: the single receive pump runs `terminateCalls` once, on exit, so a
well-formed trace has at most one `terminate` and no pump event after it. -/
def wfFrom : Bool → List Event → Bool
  | _, [] => true
  | true, e :: es => !pumpEvent e && wfFrom true es
  | false, .terminate _ :: es => wfFrom true es
  | false, _ :: es => wfFrom false es

/-- Well-formedness of a whole trace from the initial client state. -/
def wf (es : List Event) : Bool := wfFrom false es

/-- Reachable-state invariant for the Done-signal accounting: pending calls
have been signalled exactly `isShutdown` times; completed calls were
signalled once, except those cancelled before completion, which were never
signalled; sequence numbers separate pending from completed calls. -/
structure Inv (c : Client) : Prop where
  seqLt : ∀ s ∈ c.pending.map Call.seq ++ c.completed.map Call.seq, s < c.seq
  pcDisj : ∀ s ∈ c.pending.map Call.seq, s ∉ c.completed.map Call.seq
  pendingDone : ∀ k ∈ c.pending, k.doneCount = if c.isShutdown then 1 else 0
  completedDone : ∀ k ∈ c.completed,
      (k.seq ∈ c.cancelled → k.doneCount = 0) ∧ (k.seq ∉ c.cancelled → k.doneCount = 1)
  cancelledSub : ∀ s ∈ c.cancelled, s ∈ c.completed.map Call.seq

theorem inv_filter_pending (c : Client) (s : Nat) (h : Inv c) :
    Inv { c with pending := c.pending.filter (fun k => !(k.seq == s)) } := by
  constructor
  · intro s2 hs2
    apply h.seqLt
    simp only [List.mem_append, List.mem_map] at hs2 ⊢
    rcases hs2 with ⟨k, hk, rfl⟩ | hc
    · exact Or.inl ⟨k, List.mem_of_mem_filter hk, rfl⟩
    · exact Or.inr hc
  · intro s2 hs2
    apply h.pcDisj
    simp only [List.mem_map] at hs2 ⊢
    rcases hs2 with ⟨k, hk, rfl⟩
    exact ⟨k, List.mem_of_mem_filter hk, rfl⟩
  · intro k hk
    exact h.pendingDone k (List.mem_of_mem_filter hk)
  · exact h.completedDone
  · exact h.cancelledSub

theorem inv_finishCall (c : Client) (s : Nat) (upd : Call → Call) (h : Inv c)
    (hsd : c.isShutdown = false)
    (hseq : ∀ k, (upd k).seq = k.seq)
    (hdone : ∀ k, k.doneCount = 0 → (upd k).doneCount = 1) :
    Inv (finishCall c s upd) := by
  cases hfind : c.pending.find? (fun k => k.seq == s) with
  | none =>
      have hstep : finishCall c s upd
          = { c with pending := c.pending.filter (fun k => !(k.seq == s)) } := by
        rw [finishCall, removeCall, hfind]
      rw [hstep]
      exact inv_filter_pending c s h
  | some k =>
      have hkmem : k ∈ c.pending := List.mem_of_find?_eq_some hfind
      have hkseq : k.seq = s := by
        have := List.find?_some hfind
        simpa using this
      have hknotc : k.seq ∉ c.completed.map Call.seq :=
        h.pcDisj k.seq (List.mem_map.2 ⟨k, hkmem, rfl⟩)
      have hknotcan : k.seq ∉ c.cancelled := fun hc => hknotc (h.cancelledSub _ hc)
      have hkdone : k.doneCount = 0 := by
        have := h.pendingDone k hkmem
        rw [hsd] at this
        simpa using this
      have hstep : finishCall c s upd
          = { c with pending := c.pending.filter (fun k2 => !(k2.seq == s)),
                     completed := upd k :: c.completed } := by
        rw [finishCall, removeCall, hfind]
      rw [hstep]
      constructor
      · intro s2 hs2
        apply h.seqLt
        simp only [List.mem_append, List.mem_map, List.mem_cons] at hs2 ⊢
        rcases hs2 with ⟨k2, hk2, rfl⟩ | ⟨k2, hk2 | hk2, rfl⟩
        · exact Or.inl ⟨k2, List.mem_of_mem_filter hk2, rfl⟩
        · subst hk2
          exact Or.inl ⟨k, hkmem, (hseq k).symm ▸ rfl⟩
        · exact Or.inr ⟨k2, hk2, rfl⟩
      · intro s2 hs2
        simp only [List.mem_map] at hs2
        rcases hs2 with ⟨k2, hk2, rfl⟩
        have hk2p : k2 ∈ c.pending := List.mem_of_mem_filter hk2
        have hk2ne : k2.seq ≠ s := by
          have := List.of_mem_filter hk2
          simpa using this
        simp only [List.map_cons, List.mem_cons]
        rintro (heq | hmem)
        · rw [hseq k, hkseq] at heq
          exact hk2ne heq
        · exact h.pcDisj k2.seq (List.mem_map.2 ⟨k2, hk2p, rfl⟩) hmem
      · intro k2 hk2
        exact h.pendingDone k2 (List.mem_of_mem_filter hk2)
      · intro k2 hk2
        rcases List.mem_cons.1 hk2 with rfl | hk2
        · refine ⟨fun hc => ?_, fun _ => hdone k hkdone⟩
          rw [hseq k] at hc
          exact absurd hc hknotcan
        · exact h.completedDone k2 hk2
      · intro s2 hs2
        simp only [List.map_cons, List.mem_cons]
        exact Or.inr (h.cancelledSub s2 hs2)

theorem finishCall_isShutdown (c : Client) (s : Nat) (u : Call → Call) :
    (finishCall c s u).isShutdown = c.isShutdown := by
  rw [finishCall, removeCall]
  cases c.pending.find? (fun k => k.seq == s) <;> rfl

theorem step_ctxCancel_isShutdown (c : Client) (s : Nat) :
    (step c (.ctxCancel s)).isShutdown = c.isShutdown := by
  simp only [step, removeCall]
  split
  · rename_i c2 heq
    injection heq with h1 h2
    subst h2
    rfl
  · rename_i k c2 heq
    injection heq with h1 h2
    subst h2
    split <;> rfl

theorem step_register_isShutdown (c : Client) :
    (step c .register).isShutdown = c.isShutdown := by
  simp only [step]
  split <;> rfl

theorem step_close_isShutdown (c : Client) :
    (step c .close).isShutdown = c.isShutdown := by
  simp only [step]
  split <;> rfl

theorem inv_step (c : Client) (e : Event) (h : Inv c)
    (hok : c.isShutdown = true → pumpEvent e = false) :
    Inv (step c e) := by
  cases e with
  | register =>
      simp only [step]
      split
      · exact h
      · rename_i hg
        have hflags : c.isShutdown = false ∧ c.isClosed = false := by
          simpa using hg
        constructor
        · intro s2 hs2
          simp only [List.mem_append, List.mem_map, List.mem_cons] at hs2
          rcases hs2 with ⟨k, hk | hk, rfl⟩ | ⟨k, hk, rfl⟩
          · subst hk
            exact Nat.lt_succ_self _
          · exact Nat.lt_succ_of_lt
              (h.seqLt k.seq (List.mem_append_left _ (List.mem_map.2 ⟨k, hk, rfl⟩)))
          · exact Nat.lt_succ_of_lt
              (h.seqLt k.seq (List.mem_append_right _ (List.mem_map.2 ⟨k, hk, rfl⟩)))
        · intro s2 hs2
          simp only [List.mem_map, List.mem_cons] at hs2
          rcases hs2 with ⟨k, hk | hk, rfl⟩
          · subst hk
            intro hmem
            exact absurd (h.seqLt _ (List.mem_append_right _ hmem)) (Nat.lt_irrefl _)
          · exact h.pcDisj k.seq (List.mem_map.2 ⟨k, hk, rfl⟩)
        · intro k hk
          rcases List.mem_cons.1 hk with rfl | hk
          · show (0 : Nat) = if c.isShutdown then 1 else 0
            rw [hflags.1]
            rfl
          · show k.doneCount = if c.isShutdown then 1 else 0
            exact h.pendingDone k hk
        · exact h.completedDone
        · exact h.cancelledSub
  | sendWriteFail s m =>
      have hsd : c.isShutdown = false := by
        cases hcs : c.isShutdown
        · rfl
        · have := hok hcs
          simp [pumpEvent] at this
      exact inv_finishCall c s _ h hsd (fun k => rfl) (fun k hk => by simp [hk])
  | recvOk s =>
      have hsd : c.isShutdown = false := by
        cases hcs : c.isShutdown
        · rfl
        · have := hok hcs
          simp [pumpEvent] at this
      exact inv_finishCall c s _ h hsd (fun k => rfl) (fun k hk => by simp [hk])
  | recvErr s m =>
      have hsd : c.isShutdown = false := by
        cases hcs : c.isShutdown
        · rfl
        · have := hok hcs
          simp [pumpEvent] at this
      exact inv_finishCall c s _ h hsd (fun k => rfl) (fun k hk => by simp [hk])
  | recvBodyFail s m =>
      have hsd : c.isShutdown = false := by
        cases hcs : c.isShutdown
        · rfl
        · have := hok hcs
          simp [pumpEvent] at this
      exact inv_finishCall c s _ h hsd (fun k => rfl) (fun k hk => by simp [hk])
  | ctxCancel s =>
      cases hfind : c.pending.find? (fun k => k.seq == s) with
      | none =>
          have hstep : step c (.ctxCancel s)
              = { c with pending := c.pending.filter (fun k => !(k.seq == s)) } := by
            simp only [step, removeCall, hfind]
          rw [hstep]
          exact inv_filter_pending c s h
      | some k =>
          have hkmem : k ∈ c.pending := List.mem_of_find?_eq_some hfind
          have hkseq : k.seq = s := by
            simpa using List.find?_some hfind
          have hknotc : k.seq ∉ c.completed.map Call.seq :=
            h.pcDisj k.seq (List.mem_map.2 ⟨k, hkmem, rfl⟩)
          have hknotcan : k.seq ∉ c.cancelled := fun hc => hknotc (h.cancelledSub _ hc)
          have hseqLt : ∀ s2 ∈ (c.pending.filter (fun k2 => !(k2.seq == s))).map Call.seq
              ++ (k :: c.completed).map Call.seq, s2 < c.seq := by
            intro s2 hs2
            apply h.seqLt
            simp only [List.mem_append, List.mem_map, List.mem_cons] at hs2 ⊢
            rcases hs2 with ⟨k2, hk2, rfl⟩ | ⟨k2, hk2 | hk2, rfl⟩
            · exact Or.inl ⟨k2, List.mem_of_mem_filter hk2, rfl⟩
            · rw [hk2]
              exact Or.inl ⟨k, hkmem, rfl⟩
            · exact Or.inr ⟨k2, hk2, rfl⟩
          have hpcDisj : ∀ s2 ∈ (c.pending.filter (fun k2 => !(k2.seq == s))).map Call.seq,
              s2 ∉ (k :: c.completed).map Call.seq := by
            intro s2 hs2
            simp only [List.mem_map] at hs2
            rcases hs2 with ⟨k2, hk2, rfl⟩
            have hk2p := List.mem_of_mem_filter hk2
            have hk2ne : k2.seq ≠ s := by
              simpa using List.of_mem_filter hk2
            simp only [List.map_cons, List.mem_cons]
            rintro (heq | hmem)
            · rw [hkseq] at heq
              exact hk2ne heq
            · exact h.pcDisj k2.seq (List.mem_map.2 ⟨k2, hk2p, rfl⟩) hmem
          by_cases hd : k.doneCount = 0
          · have hstep : step c (.ctxCancel s)
                = { c with pending := c.pending.filter (fun k2 => !(k2.seq == s)),
                           completed := k :: c.completed,
                           cancelled := k.seq :: c.cancelled } := by
              simp only [step, removeCall, hfind, if_pos hd]
            rw [hstep]
            constructor
            · exact hseqLt
            · exact hpcDisj
            · intro k2 hk2
              exact h.pendingDone k2 (List.mem_of_mem_filter hk2)
            · intro k2 hk2
              rcases List.mem_cons.1 hk2 with rfl | hk2
              · exact ⟨fun _ => hd, fun hn => absurd (List.mem_cons_self _ _) hn⟩
              · constructor
                · intro hc
                  rcases List.mem_cons.1 hc with heq | hc2
                  · have : k.seq ∈ c.completed.map Call.seq := by
                      rw [← heq]
                      exact List.mem_map.2 ⟨k2, hk2, rfl⟩
                    exact absurd this hknotc
                  · exact (h.completedDone k2 hk2).1 hc2
                · intro hn
                  exact (h.completedDone k2 hk2).2
                    (fun hc => hn (List.mem_cons.2 (Or.inr hc)))
            · intro s2 hs2
              simp only [List.map_cons, List.mem_cons]
              rcases List.mem_cons.1 hs2 with rfl | hs2
              · exact Or.inl rfl
              · exact Or.inr (h.cancelledSub s2 hs2)
          · have hkdone : k.doneCount = 1 := by
              have hp := h.pendingDone k hkmem
              cases hcs : c.isShutdown
              · rw [hcs] at hp
                simp at hp
                exact absurd hp hd
              · rw [hcs] at hp
                simpa using hp
            have hstep : step c (.ctxCancel s)
                = { c with pending := c.pending.filter (fun k2 => !(k2.seq == s)),
                           completed := k :: c.completed } := by
              simp only [step, removeCall, hfind, if_neg hd]
            rw [hstep]
            constructor
            · exact hseqLt
            · exact hpcDisj
            · intro k2 hk2
              exact h.pendingDone k2 (List.mem_of_mem_filter hk2)
            · intro k2 hk2
              rcases List.mem_cons.1 hk2 with rfl | hk2
              · exact ⟨fun hc => absurd hc hknotcan, fun _ => hkdone⟩
              · exact h.completedDone k2 hk2
            · intro s2 hs2
              simp only [List.map_cons, List.mem_cons]
              exact Or.inr (h.cancelledSub s2 hs2)
  | close =>
      simp only [step]
      split
      · exact h
      · exact ⟨h.seqLt, h.pcDisj, h.pendingDone, h.completedDone, h.cancelledSub⟩
  | terminate m =>
      have hsd : c.isShutdown = false := by
        cases hcs : c.isShutdown
        · rfl
        · have := hok hcs
          simp [pumpEvent] at this
      have hms : (c.pending.map
          (fun k => { k with err := some m, doneCount := k.doneCount + 1 })).map Call.seq
          = c.pending.map Call.seq := by
        rw [List.map_map]
        rfl
      simp only [step, terminateCalls]
      constructor
      · intro s2 hs2
        apply h.seqLt
        rw [show ((c.pending.map
          (fun k => { k with err := some m, doneCount := k.doneCount + 1 })).map Call.seq
            ++ c.completed.map Call.seq)
          = (c.pending.map Call.seq ++ c.completed.map Call.seq) from by rw [hms]] at hs2
        exact hs2
      · intro s2 hs2
        rw [hms] at hs2
        exact h.pcDisj s2 hs2
      · intro k hk
        simp only [List.mem_map] at hk
        rcases hk with ⟨k0, hk0, rfl⟩
        have hp := h.pendingDone k0 hk0
        rw [hsd] at hp
        simp only [if_neg Bool.false_ne_true] at hp
        show k0.doneCount + 1 = if true then 1 else 0
        simp [hp]
      · exact h.completedDone
      · exact h.cancelledSub

theorem inv_clientInit : Inv clientInit := by
  constructor <;> simp [clientInit]

theorem inv_run (es : List Event) : ∀ (c : Client), Inv c →
    wfFrom c.isShutdown es = true → Inv (run c es) := by
  induction es with
  | nil =>
      intro c h _
      exact h
  | cons e es ih =>
      intro c h hwf
      show Inv (run (step c e) es)
      cases hcs : c.isShutdown with
      | true =>
          rw [hcs] at hwf
          have h1 : pumpEvent e = false ∧ wfFrom true es = true := by
            simpa [wfFrom] using hwf
          have hstep : (step c e).isShutdown = true := by
            cases e with
            | register => rw [step_register_isShutdown]; exact hcs
            | close => rw [step_close_isShutdown]; exact hcs
            | ctxCancel s => rw [step_ctxCancel_isShutdown]; exact hcs
            | sendWriteFail s m => simp [pumpEvent] at h1
            | recvOk s => simp [pumpEvent] at h1
            | recvErr s m => simp [pumpEvent] at h1
            | recvBodyFail s m => simp [pumpEvent] at h1
            | terminate m => simp [pumpEvent] at h1
          exact ih (step c e) (inv_step c e h (fun _ => h1.1))
            (by rw [hstep]; exact h1.2)
      | false =>
          rw [hcs] at hwf
          have hok : c.isShutdown = true → pumpEvent e = false := by
            intro hc
            rw [hcs] at hc
            cases hc
          cases e with
          | terminate m =>
              have hwf2 : wfFrom true es = true := by simpa [wfFrom] using hwf
              have hstep : (step c (.terminate m)).isShutdown = true := rfl
              exact ih _ (inv_step c _ h hok) (by rw [hstep]; exact hwf2)
          | register =>
              have hwf2 : wfFrom false es = true := by simpa [wfFrom] using hwf
              have hstep : (step c .register).isShutdown = false := by
                rw [step_register_isShutdown]; exact hcs
              exact ih _ (inv_step c _ h hok) (by rw [hstep]; exact hwf2)
          | close =>
              have hwf2 : wfFrom false es = true := by simpa [wfFrom] using hwf
              have hstep : (step c .close).isShutdown = false := by
                rw [step_close_isShutdown]; exact hcs
              exact ih _ (inv_step c _ h hok) (by rw [hstep]; exact hwf2)
          | ctxCancel s =>
              have hwf2 : wfFrom false es = true := by simpa [wfFrom] using hwf
              have hstep : (step c (.ctxCancel s)).isShutdown = false := by
                rw [step_ctxCancel_isShutdown]; exact hcs
              exact ih _ (inv_step c _ h hok) (by rw [hstep]; exact hwf2)
          | sendWriteFail s m =>
              have hwf2 : wfFrom false es = true := by simpa [wfFrom] using hwf
              have hstep : (step c (.sendWriteFail s m)).isShutdown = false := by
                rw [show step c (.sendWriteFail s m)
                  = finishCall c s (fun k => ⟨k.seq, some m, k.doneCount + 1⟩) from rfl]
                rw [finishCall_isShutdown]
                exact hcs
              exact ih _ (inv_step c _ h hok) (by rw [hstep]; exact hwf2)
          | recvOk s =>
              have hwf2 : wfFrom false es = true := by simpa [wfFrom] using hwf
              have hstep : (step c (.recvOk s)).isShutdown = false := by
                rw [show step c (.recvOk s)
                  = finishCall c s (fun k => ⟨k.seq, k.err, k.doneCount + 1⟩) from rfl]
                rw [finishCall_isShutdown]
                exact hcs
              exact ih _ (inv_step c _ h hok) (by rw [hstep]; exact hwf2)
          | recvErr s m =>
              have hwf2 : wfFrom false es = true := by simpa [wfFrom] using hwf
              have hstep : (step c (.recvErr s m)).isShutdown = false := by
                rw [show step c (.recvErr s m)
                  = finishCall c s (fun k => ⟨k.seq, some m, k.doneCount + 1⟩) from rfl]
                rw [finishCall_isShutdown]
                exact hcs
              exact ih _ (inv_step c _ h hok) (by rw [hstep]; exact hwf2)
          | recvBodyFail s m =>
              have hwf2 : wfFrom false es = true := by simpa [wfFrom] using hwf
              have hstep : (step c (.recvBodyFail s m)).isShutdown = false := by
                rw [show step c (.recvBodyFail s m)
                  = finishCall c s
                      (fun k => ⟨k.seq, some ("reading body " ++ m), k.doneCount + 1⟩) from rfl]
                rw [finishCall_isShutdown]
                exact hcs
              exact ih _ (inv_step c _ h hok) (by rw [hstep]; exact hwf2)

/-- C3 counterexample: a call registered and then removed by ctx
cancellation has its Done channel written zero times, not exactly once, and
the pending map no longer holds it — so no later subsystem will ever signal
it.  The trace is well-formed. -/
theorem cancelled_call_never_signalled :
    wf [Event.register, Event.ctxCancel 1] = true ∧
    ((run clientInit [Event.register, Event.ctxCancel 1]).completed.map
        (fun k => (k.seq, k.doneCount)) = [(1, 0)]) ∧
    (run clientInit [Event.register, Event.ctxCancel 1]).pending = [] := by
  decide

/-- C3 amended: along every well-formed trace, a registered call is
signalled on Done at most once; a call that reached a terminal event other
than ctx cancellation (success, server error, body-read failure, send
failure, or shutdown via terminateCalls) is signalled exactly once, while a
call removed by ctx cancellation before completion is never signalled. -/
theorem done_signalled_once_except_cancel (es : List Event)
    (hwf : wf es = true) :
    (∀ k ∈ (run clientInit es).completed, k.doneCount ≤ 1) ∧
    (∀ k ∈ (run clientInit es).completed,
        k.seq ∉ (run clientInit es).cancelled → k.doneCount = 1) ∧
    (∀ k ∈ (run clientInit es).completed,
        k.seq ∈ (run clientInit es).cancelled → k.doneCount = 0) ∧
    (∀ k ∈ (run clientInit es).pending,
        k.doneCount = if (run clientInit es).isShutdown then 1 else 0) := by
  have hinv : Inv (run clientInit es) := inv_run es clientInit inv_clientInit hwf
  refine ⟨?_, ?_, ?_, hinv.pendingDone⟩
  · intro k hk
    by_cases hc : k.seq ∈ (run clientInit es).cancelled
    · rw [(hinv.completedDone k hk).1 hc]
      exact Nat.zero_le 1
    · rw [(hinv.completedDone k hk).2 hc]
  · intro k hk hc
    exact (hinv.completedDone k hk).2 hc
  · intro k hk hc
    exact (hinv.completedDone k hk).1 hc

/-- Closed witness for the Done-signal theorem: a four-event trace with a
successful reply, a second registered call, and a transport shutdown. -/
theorem done_signalled_once_except_cancel_witness :
    (⟨1, none, 1⟩ : Call) ∈
      (run clientInit [Event.register, Event.recvOk 1, Event.register,
        Event.terminate "eof"]).completed ∧
    (⟨1, none, 1⟩ : Call).doneCount = 1 := by
  refine ⟨by decide, ?_⟩
  exact (done_signalled_once_except_cancel
    [Event.register, Event.recvOk 1, Event.register, Event.terminate "eof"]
    (by decide)).2.1 ⟨1, none, 1⟩ (by decide) (by decide)

theorem finishCall_assigned (c : Client) (s : Nat) (u : Call → Call) :
    (finishCall c s u).assigned = c.assigned := by
  rw [finishCall, removeCall]
  cases c.pending.find? (fun k => k.seq == s) <;> rfl

theorem finishCall_seq (c : Client) (s : Nat) (u : Call → Call) :
    (finishCall c s u).seq = c.seq := by
  rw [finishCall, removeCall]
  cases c.pending.find? (fun k => k.seq == s) <;> rfl

theorem step_ctxCancel_assigned_seq (c : Client) (s : Nat) :
    (step c (.ctxCancel s)).assigned = c.assigned ∧
    (step c (.ctxCancel s)).seq = c.seq := by
  simp only [step, removeCall]
  split
  · rename_i c2 heq
    injection heq with h1 h2
    subst h2
    exact ⟨rfl, rfl⟩
  · rename_i k c2 heq
    injection heq with h1 h2
    subst h2
    split <;> exact ⟨rfl, rfl⟩

theorem assigned_run (es : List Event) : ∀ (c : Client),
    c.assigned = List.range' 1 (c.seq - 1) → 1 ≤ c.seq →
    (run c es).assigned = List.range' 1 ((run c es).seq - 1) ∧
    1 ≤ (run c es).seq := by
  induction es with
  | nil =>
      intro c h1 h2
      exact ⟨h1, h2⟩
  | cons e es ih =>
      intro c h1 h2
      show (run (step c e) es).assigned = _ ∧ _
      apply ih
      · cases e with
        | register =>
            simp only [step]
            split
            · exact h1
            · show c.assigned ++ [c.seq] = List.range' 1 (c.seq + 1 - 1)
              obtain ⟨n, hn⟩ : ∃ n, c.seq = n + 1 :=
                ⟨c.seq - 1, (Nat.succ_pred_eq_of_pos h2).symm⟩
              rw [h1, hn]
              simp [List.range'_concat, Nat.add_comm]
        | sendWriteFail s m =>
            rw [show step c (.sendWriteFail s m)
              = finishCall c s (fun k => ⟨k.seq, some m, k.doneCount + 1⟩) from rfl]
            rw [finishCall_assigned, finishCall_seq]
            exact h1
        | recvOk s =>
            rw [show step c (.recvOk s)
              = finishCall c s (fun k => ⟨k.seq, k.err, k.doneCount + 1⟩) from rfl]
            rw [finishCall_assigned, finishCall_seq]
            exact h1
        | recvErr s m =>
            rw [show step c (.recvErr s m)
              = finishCall c s (fun k => ⟨k.seq, some m, k.doneCount + 1⟩) from rfl]
            rw [finishCall_assigned, finishCall_seq]
            exact h1
        | recvBodyFail s m =>
            rw [show step c (.recvBodyFail s m)
              = finishCall c s
                  (fun k => ⟨k.seq, some ("reading body " ++ m), k.doneCount + 1⟩) from rfl]
            rw [finishCall_assigned, finishCall_seq]
            exact h1
        | ctxCancel s =>
            rw [(step_ctxCancel_assigned_seq c s).1, (step_ctxCancel_assigned_seq c s).2]
            exact h1
        | close =>
            simp only [step]
            split
            · exact h1
            · exact h1
        | terminate m =>
            exact h1
      · cases e with
        | register =>
            simp only [step]
            split
            · exact h2
            · exact Nat.le_succ_of_le h2
        | sendWriteFail s m =>
            rw [show step c (.sendWriteFail s m)
              = finishCall c s (fun k => ⟨k.seq, some m, k.doneCount + 1⟩) from rfl]
            rw [finishCall_seq]
            exact h2
        | recvOk s =>
            rw [show step c (.recvOk s)
              = finishCall c s (fun k => ⟨k.seq, k.err, k.doneCount + 1⟩) from rfl]
            rw [finishCall_seq]
            exact h2
        | recvErr s m =>
            rw [show step c (.recvErr s m)
              = finishCall c s (fun k => ⟨k.seq, some m, k.doneCount + 1⟩) from rfl]
            rw [finishCall_seq]
            exact h2
        | recvBodyFail s m =>
            rw [show step c (.recvBodyFail s m)
              = finishCall c s
                  (fun k => ⟨k.seq, some ("reading body " ++ m), k.doneCount + 1⟩) from rfl]
            rw [finishCall_seq]
            exact h2
        | ctxCancel s =>
            rw [(step_ctxCancel_assigned_seq c s).2]
            exact h2
        | close =>
            simp only [step]
            split
            · exact h2
            · exact h2
        | terminate m =>
            exact h2

/-- C6: along any trace of client events, the sequence numbers assigned by
successful registerCall invocations are, in order of registration, exactly
1, 2, 3, … — the initial segment of the naturals starting at 1, hence
duplicate-free — and when the client is closed or shut down a registration
attempt leaves the client state unchanged, assigning no sequence number. -/
theorem seq_numbers_initial_segment (es : List Event) :
    (run clientInit es).assigned
      = List.range' 1 ((run clientInit es).assigned.length) ∧
    (((run clientInit es).isShutdown || (run clientInit es).isClosed) = true →
      step (run clientInit es) .register = run clientInit es) := by
  have main := assigned_run es clientInit (by simp [clientInit]) (by simp [clientInit])
  constructor
  · rw [main.1]
    rw [List.length_range']
  · intro hflag
    simp only [step]
    rw [if_pos hflag]

/-- Closed witness for the sequence-number theorem: after the client shuts
down, a registration attempt is a no-op. -/
theorem seq_numbers_initial_segment_witness :
    step (run clientInit [Event.register, Event.terminate "eof"]) .register
      = run clientInit [Event.register, Event.terminate "eof"] := by
  exact (seq_numbers_initial_segment [Event.register, Event.terminate "eof"]).2
    (by decide)

/-! ## Service reflector (service.go) and request resolution (server.go)

Go reflection data is embedded structurally: a `GoType` is its name, package
path and kind; a `GoMethod` is its name with input types (index 0 is the
receiver) and output types.  `registerMethods` is the filter the source
applies to the receiver type's method set. -/

inductive Kind where
  | ptr
  | int
  | str
  | boolean
  | structure_
  | mapKind
  | slice
  | interface_
deriving Repr, DecidableEq, BEq

structure GoType where
  name : String
  pkgPath : String
  kind : Kind
deriving Repr, DecidableEq, BEq

/-- The distinguished reflect type of Go's builtin error interface,
`reflect.TypeOf((*error)(nil)).Elem()`. -/
def errorType : GoType := { name := "error", pkgPath := "", kind := .interface_ }

structure GoMethod where
  name : String
  inTypes : List GoType
  outTypes : List GoType
deriving Repr, DecidableEq, BEq

/-- Embedding of `ast.IsExported`: the first character is upper case. -/
def isExported (s : String) : Bool :=
  match s.toList with
  | [] => false
  | c :: _ => c.isUpper

/-- Embedding of `isExportedOrBuiltinType`. -/
def isExportedOrBuiltinType (t : GoType) : Bool :=
  isExported t.name || t.pkgPath == ""

/-- Embedding of `service.registerMethods`: keep a method iff it has three
inputs (receiver, arg, reply), one output, that output is the error type,
and both arg and reply types are exported or builtin.  The source performs
no pointer-kind check on the reply type. -/
def registerMethods (methods : List GoMethod) : List (String × GoMethod) :=
  methods.filterMap (fun m =>
    if m.inTypes.length != 3 || m.outTypes.length != 1 then none
    else if m.outTypes.get? 0 != some errorType then none
    else match m.inTypes.get? 1, m.inTypes.get? 2 with
      | some argType, some replyType =>
          if !isExportedOrBuiltinType argType || !isExportedOrBuiltinType replyType
          then none
          else some (m.name, m)
      | _, _ => none)

/-- Embedding of `service`: its name and registered method map. -/
structure Service where
  name : String
  method : List (String × GoMethod)
deriving Repr, DecidableEq

/-- Split a character list at its LAST dot (`strings.LastIndex(s, ".")`),
returning the parts before and after it, or none when no dot occurs. -/
def splitLastDot : List Char → Option (List Char × List Char)
  | [] => none
  | c :: rest =>
      match splitLastDot rest with
      | some (before, after) => some (c :: before, after)
      | none => if c = '.' then some ([], rest) else none

/-- Embedding of `Server.findService` over the server's service map. -/
def findService (serviceMap : List (String × Service)) (serviceMethod : String) :
    Except String (Service × GoMethod) :=
  match splitLastDot serviceMethod.toList with
  | none => .error ("rpc server: service/method request ill-formed: " ++ serviceMethod)
  | some (sN, mN) =>
      match serviceMap.lookup (String.mk sN) with
      | none => .error ("rpc server: can't find service " ++ String.mk sN)
      | some svc =>
          match svc.method.lookup (String.mk mN) with
          | none => .error ("rpc server: can't find method " ++ String.mk mN)
          | some mt => .ok (svc, mt)

theorem splitLastDot_eq_none (cs : List Char) :
    splitLastDot cs = none ↔ '.' ∉ cs := by
  induction cs with
  | nil => simp [splitLastDot]
  | cons c rest ih =>
      rw [splitLastDot]
      cases h : splitLastDot rest with
      | some p =>
          obtain ⟨before, after⟩ := p
          have hdot : '.' ∈ rest := by
            by_contra hn
            have h2 := ih.2 hn
            rw [h2] at h
            exact Option.noConfusion h
          simp [hdot]
      | none =>
          have hrest : '.' ∉ rest := ih.1 h
          by_cases hc : c = '.'
          · subst hc
            simp
          · simp [hc, hrest, Ne.symm hc]

theorem splitLastDot_append (before after : List Char) (hpost : '.' ∉ after) :
    splitLastDot (before ++ '.' :: after) = some (before, after) := by
  induction before with
  | nil =>
      rw [List.nil_append, splitLastDot, (splitLastDot_eq_none after).2 hpost]
      simp
  | cons c before ih =>
      rw [List.cons_append, splitLastDot, ih]

/-- C8: `findService` splits the ServiceMethod string at its last dot; a
dotless string yields the ill-formed error, an unknown service name the
can't-find-service error, a known service with an unknown method name the
can't-find-method error, and otherwise the registered service and method
descriptor are returned without error. -/
theorem findService_resolution (M : List (String × Service)) (sm : String) :
    ('.' ∉ sm.toList →
        findService M sm
          = .error ("rpc server: service/method request ill-formed: " ++ sm)) ∧
    (∀ before after, sm.toList = before ++ '.' :: after → '.' ∉ after →
      (M.lookup (String.mk before) = none →
          findService M sm
            = .error ("rpc server: can't find service " ++ String.mk before)) ∧
      (∀ svc, M.lookup (String.mk before) = some svc →
        (svc.method.lookup (String.mk after) = none →
            findService M sm
              = .error ("rpc server: can't find method " ++ String.mk after)) ∧
        (∀ mt, svc.method.lookup (String.mk after) = some mt →
            findService M sm = .ok (svc, mt)))) := by
  constructor
  · intro hnd
    rw [findService, (splitLastDot_eq_none _).2 hnd]
  · intro before after hsplit hpost
    have hs : splitLastDot sm.toList = some (before, after) := by
      rw [hsplit]
      exact splitLastDot_append before after hpost
    refine ⟨fun hserv => by simp only [findService, hs, hserv],
      fun svc hsvc => ⟨?_, ?_⟩⟩
    · intro hm
      simp only [findService, hs, hsvc, hm]
    · intro mt hmt
      simp only [findService, hs, hsvc, hmt]

/-- Demo service used as concrete input: an Arith receiver with the valid
method Sum and, for the C4 claim, the method BadSum whose reply parameter is
a plain int rather than a pointer. -/
def arithType : GoType := { name := "Arith", pkgPath := "main", kind := .ptr }

def intType : GoType := { name := "int", pkgPath := "", kind := .int }

def intPtrType : GoType := { name := "", pkgPath := "", kind := .ptr }

def sumMethod : GoMethod :=
  { name := "Sum", inTypes := [arithType, intType, intPtrType], outTypes := [errorType] }

def badSumMethod : GoMethod :=
  { name := "BadSum", inTypes := [arithType, intType, intType], outTypes := [errorType] }

def fooService : Service := { name := "Foo", method := [("Sum", sumMethod)] }

def demoServiceMap : List (String × Service) := [("Foo", fooService)]

/-- Closed witness for the findService theorem, exercising all four
branches on the demo service map. -/
theorem findService_resolution_witness :
    findService demoServiceMap "NoDot"
      = .error "rpc server: service/method request ill-formed: NoDot" ∧
    findService demoServiceMap "Bar.Sum"
      = .error "rpc server: can't find service Bar" ∧
    findService demoServiceMap "Foo.Mul"
      = .error "rpc server: can't find method Mul" ∧
    findService demoServiceMap "Foo.Sum" = .ok (fooService, sumMethod) := by
  refine ⟨?_, ?_, ?_, ?_⟩
  · exact (findService_resolution demoServiceMap "NoDot").1 (by decide)
  · have h := ((findService_resolution demoServiceMap "Bar.Sum").2
      ['B', 'a', 'r'] ['S', 'u', 'm'] (by decide) (by decide)).1 (by decide)
    rw [h]
    rfl
  · have h := (((findService_resolution demoServiceMap "Foo.Mul").2
      ['F', 'o', 'o'] ['M', 'u', 'l'] (by decide) (by decide)).2
      fooService (by decide)).1 (by decide)
    rw [h]
    rfl
  · exact (((findService_resolution demoServiceMap "Foo.Sum").2
      ['F', 'o', 'o'] ['S', 'u', 'm'] (by decide) (by decide)).2
      fooService (by decide)).2 sumMethod (by decide)

/-- C4 evaluated at the failing input: a method whose reply parameter is of
int kind, not pointer kind, passes every check of `registerMethods` — the
source has no pointer-kind test — so it IS in the method map, and a Call
naming it resolves successfully instead of failing with the
can't-find-method error. -/
theorem nonpointer_reply_method_is_registered :
    (registerMethods [badSumMethod]).lookup "BadSum" = some badSumMethod ∧
    badSumMethod.inTypes.get? 2 = some intType ∧
    intType.kind ≠ Kind.ptr ∧
    findService
      [("Arith", { name := "Arith", method := registerMethods [badSumMethod] })]
      "Arith.BadSum"
      = .ok ({ name := "Arith", method := registerMethods [badSumMethod] },
             badSumMethod) := by
  refine ⟨by decide, by decide, by decide, ?_⟩
  rfl

/-! ## Option, parseOption and dialTimeout (client.go) -/

/-- One second, in nanoseconds (Go `time.Duration` units). -/
def second : Nat := 1000000000

structure ProtoOption where
  magicNumber : Nat
  codecType : String
  connectTimeout : Nat
  handleTimeout : Nat
deriving Repr, DecidableEq

def defaultOption : ProtoOption :=
  { magicNumber := 0x3bef5c, codecType := "application/gob",
    connectTimeout := 10 * second, handleTimeout := 0 }

/-- Embedding of `parseOption` over the variadic option slice (a nil entry
is `none`): no argument or a nil first argument yields the default option,
more than one argument is an error, and otherwise the magic number is
overwritten with the default and an empty codec type is defaulted. -/
def parseOption (opts : List (Option ProtoOption)) : Except String ProtoOption :=
  if opts.length = 0 ∨ opts.head? = some none then .ok defaultOption
  else if opts.length ≠ 1 then .error "number of options is more than 1"
  else
    match opts.head? with
    | some (some o) =>
        .ok { o with magicNumber := defaultOption.magicNumber,
                     codecType := if o.codecType = "" then defaultOption.codecType
                                  else o.codecType }
    | _ => .ok defaultOption

/-- Result of a client constructor: a client (abstracted to an identifier)
or an error message. -/
inductive CtorResult where
  | ok (clientId : Nat)
  | err (msg : String)
deriving Repr, DecidableEq

/-- Observable outcome of `dialTimeout`: the returned client or error, and
whether the `time.After` timer arm was started. -/
structure DialOutcome where
  result : CtorResult
  timerStarted : Bool
deriving Repr, DecidableEq

/-- Embedding of `dialTimeout`.  `f` is the client constructor, `dialConn`
the outcome of `net.DialTimeout` (a connection identifier or an error), and
`ctorWithinTimeout` resolves the race between the constructor hand-off and
the timer in the nonzero-timeout branch.  With `connectTimeout = 0` the
source blocks on the hand-off channel and returns the constructor result
directly; the `select` with `time.After` is never reached. -/
def dialTimeout (f : Nat → ProtoOption → CtorResult)
    (dialConn : ProtoOption → Except String Nat)
    (ctorWithinTimeout : Bool)
    (opts : List (Option ProtoOption)) : DialOutcome :=
  match parseOption opts with
  | .error e => { result := .err e, timerStarted := false }
  | .ok opt =>
      match dialConn opt with
      | .error e => { result := .err e, timerStarted := false }
      | .ok conn =>
          if opt.connectTimeout = 0 then
            { result := f conn opt, timerStarted := false }
          else if ctorWithinTimeout then
            { result := f conn opt, timerStarted := true }
          else
            { result := .err ("rpc client: connect timeout: expect within "
                ++ toString opt.connectTimeout), timerStarted := true }

/-- C7: when the parsed option has ConnectTimeout = 0 and the connection is
established, dialTimeout returns exactly the result of applying the
constructor to the connection and option, and the timer arm is never
started. -/
theorem dialTimeout_zero_runs_ctor_synchronously
    (f : Nat → ProtoOption → CtorResult) (dialConn : ProtoOption → Except String Nat)
    (w : Bool) (opts : List (Option ProtoOption)) (opt : ProtoOption) (conn : Nat)
    (hparse : parseOption opts = .ok opt)
    (h0 : opt.connectTimeout = 0)
    (hconn : dialConn opt = .ok conn) :
    dialTimeout f dialConn w opts = { result := f conn opt, timerStarted := false } := by
  simp only [dialTimeout, hparse, hconn, if_pos h0]

/-- Closed witness for the zero-timeout dial theorem at a concrete option
and constructor. -/
theorem dialTimeout_zero_runs_ctor_synchronously_witness :
    dialTimeout (fun c _ => .ok c) (fun _ => .ok 5) true
        [some { magicNumber := 0, codecType := "", connectTimeout := 0,
                handleTimeout := 0 }]
      = { result := .ok 5, timerStarted := false } := by
  exact dialTimeout_zero_runs_ctor_synchronously _ _ _ _
    { magicNumber := 0x3bef5c, codecType := "application/gob",
      connectTimeout := 0, handleTimeout := 0 }
    5 rfl rfl rfl

/-! ## CenterRegistryDiscovery (xclient package) -/

structure CRDiscovery where
  servers : List String
  registryAddr : String
  timeout : Nat
  lastUpdate : Nat
deriving Repr, DecidableEq

/-- Comma split (`strings.Split(s, ",")`) over the character list. -/
def splitOnComma : List Char → List (List Char)
  | [] => [[]]
  | c :: rest =>
      if c = ',' then [] :: splitOnComma rest
      else
        match splitOnComma rest with
        | [] => [[c]]
        | g :: gs => (c :: g) :: gs

def isWhitespaceChar (c : Char) : Bool :=
  c = ' ' || c = '\t' || c = '\n' || c = '\r'

/-- Embedding of `strings.TrimSpace` (restricted to ASCII whitespace). -/
def trimChars (cs : List Char) : List Char :=
  ((cs.dropWhile isWhitespaceChar).reverse.dropWhile isWhitespaceChar).reverse

/-- Parsing of the X-Myrpc-Servers header in `Refresh`: split on commas,
trim whitespace, drop empties. -/
def parseServersHeader (h : String) : List String :=
  ((splitOnComma h.toList).map (fun cs => String.mk (trimChars cs))).filter
    (fun s => s != "")

/-- Embedding of `CenterRegistryDiscovery.Refresh`: a no-op while the
refresh window is still open; otherwise perform the HTTP GET (its outcome is
the `httpGet` argument), propagate its error without touching any state, or
on success replace the server list and stamp lastUpdate. -/
def refresh (d : CRDiscovery) (now : Nat) (httpGet : Except String String) :
    CRDiscovery × Option String :=
  if now < d.lastUpdate + d.timeout then (d, none)
  else
    match httpGet with
    | .error e => (d, some e)
    | .ok hdr =>
        ({ d with servers := parseServersHeader hdr, lastUpdate := now }, none)

/-- Whether a refresh at the given instant reaches the HTTP fetch (rather
than taking the cached no-op branch). -/
def refreshAttemptsFetch (d : CRDiscovery) (now : Nat) : Bool :=
  !(decide (now < d.lastUpdate + d.timeout))

/-- Embedding of `CenterRegistryDiscovery.GetAll`: refresh first, propagate
its error, otherwise return the (copied) server list. -/
def crdGetAll (d : CRDiscovery) (now : Nat) (httpGet : Except String String) :
    CRDiscovery × Except String (List String) :=
  match refresh d now httpGet with
  | (d2, some e) => (d2, .error e)
  | (d2, none) => (d2, .ok d2.servers)

/-- C9: when the refresh window has expired and the HTTP GET fails, Refresh
returns that error with the cached server list and lastUpdate unchanged;
consequently at any later instant the next GetAll reaches the fetch again
and, when that fetch succeeds, serves the freshly parsed list rather than
the stale one. -/
theorem refresh_error_keeps_state_and_retries
    (d : CRDiscovery) (now now2 : Nat) (e : String) (hdr : String)
    (hexp : d.lastUpdate + d.timeout ≤ now) (hle : now ≤ now2) :
    refresh d now (.error e) = (d, some e) ∧
    refreshAttemptsFetch (refresh d now (.error e)).1 now2 = true ∧
    crdGetAll (refresh d now (.error e)).1 now2 (.ok hdr)
      = ({ d with servers := parseServersHeader hdr, lastUpdate := now2 },
         .ok (parseServersHeader hdr)) := by
  have h1 : refresh d now (.error e) = (d, some e) := by
    rw [refresh, if_neg (by omega)]
  refine ⟨h1, ?_, ?_⟩
  · rw [h1]
    simp only [refreshAttemptsFetch, Bool.not_eq_true', decide_eq_false_iff_not]
    omega
  · rw [h1]
    have h2 : refresh d now2 (.ok hdr)
        = ({ d with servers := parseServersHeader hdr, lastUpdate := now2 }, none) := by
      rw [refresh, if_neg (by omega)]
    simp only [crdGetAll, h2]

/-- Closed witness for the refresh-error theorem at a concrete discovery. -/
theorem refresh_error_keeps_state_and_retries_witness :
    crdGetAll (refresh ⟨["old"], "reg", 10, 0⟩ 10 (Except.error "boom")).1 11
        (Except.ok "a,b")
      = (⟨["a", "b"], "reg", 10, 11⟩, Except.ok ["a", "b"]) := by
  have h := (refresh_error_keeps_state_and_retries ⟨["old"], "reg", 10, 0⟩ 10 11
    "boom" "a,b" (by decide) (by decide)).2.2
  rw [h]
  have hp : parseServersHeader "a,b" = ["a", "b"] := by decide
  rw [hp]

/-! ## MultiServersDiscovery.GetAll (xclient package): fresh-copy semantics

Aliasing is made observable through a store of string slices: a slice value
is a reference (index) into the store, and the discovery's servers field
holds such a reference. -/

abbrev SliceStore := List (List String)

structure MSDiscovery where
  serversRef : Nat
  index : Nat
deriving Repr, DecidableEq

def storeRead (st : SliceStore) (r : Nat) : List String := st.getD r []

def storeWrite (st : SliceStore) (r : Nat) (v : List String) : SliceStore :=
  st.set r v

/-- Embedding of `MultiServersDiscovery.GetAll`: allocate a fresh slice,
copy the servers into it (`make` + `copy`), and return it with a nil
error. -/
def getAll (st : SliceStore) (d : MSDiscovery) : SliceStore × Nat × Option String :=
  (st ++ [storeRead st d.serversRef], st.length, none)

/-- C10: GetAll always returns a nil error and a fresh copy of the server
list: same contents, a reference distinct from the discovery's own, and
overwriting the returned slice leaves the discovery's servers unchanged. -/
theorem getAll_returns_fresh_copy (st : SliceStore) (d : MSDiscovery)
    (href : d.serversRef < st.length) :
    (getAll st d).2.2 = none ∧
    storeRead (getAll st d).1 (getAll st d).2.1 = storeRead st d.serversRef ∧
    (getAll st d).2.1 ≠ d.serversRef ∧
    (∀ v, storeRead (storeWrite (getAll st d).1 (getAll st d).2.1 v) d.serversRef
        = storeRead st d.serversRef) := by
  refine ⟨rfl, ?_, ?_, ?_⟩
  · show storeRead (st ++ [storeRead st d.serversRef]) st.length = _
    rw [storeRead, List.getD_eq_getElem?_getD, List.getElem?_append_right (Nat.le_refl _)]
    simp
  · exact fun h => absurd (h ▸ href) (Nat.lt_irrefl _)
  · intro v
    show storeRead (List.set (st ++ [storeRead st d.serversRef]) st.length v)
        d.serversRef = _
    rw [storeRead, List.getD_eq_getElem?_getD,
      List.getElem?_set_ne (Nat.ne_of_gt href),
      List.getElem?_append_left href]
    rw [storeRead, List.getD_eq_getElem?_getD]

/-- Closed witness for the fresh-copy theorem: writing through the returned
slice reference does not change the discovery's servers. -/
theorem getAll_returns_fresh_copy_witness :
    storeRead (storeWrite (getAll [["a", "b"]] ⟨0, 0⟩).1
      (getAll [["a", "b"]] ⟨0, 0⟩).2.1 ["x"]) 0 = ["a", "b"] := by
  exact ((getAll_returns_fresh_copy [["a", "b"]] ⟨0, 0⟩ (by decide)).2.2.2 ["x"])

/-! ## XClient (xclient package): client cache vs XClient.call -/

structure CachedClient where
  id : Nat
  isClosed : Bool
  isShutdown : Bool
deriving Repr, DecidableEq

/-- Embedding of `Client.IsAvailable` on a cached client. -/
def cachedIsAvailable (c : CachedClient) : Bool := !c.isShutdown && !c.isClosed

structure XClientState where
  clients : List (String × CachedClient)
  nextId : Nat
deriving Repr, DecidableEq

/-- Embedding of `XDial`: it always constructs a brand-new client
(dialTimeout → NewClient);
modelled as allocating the next fresh client identifier. -/
def xDial (st : XClientState) : CachedClient × XClientState :=
  ({ id := st.nextId, isClosed := false, isShutdown := false },
   { st with nextId := st.nextId + 1 })

/-- Embedding of `XClient.dial`: reuse a cached available client; close and
evict a cached unavailable one, then dial anew and store; on a cache miss
dial anew and store. -/
def xcDial (st : XClientState) (addr : String) : CachedClient × XClientState :=
  match st.clients.lookup addr with
  | some c =>
      if cachedIsAvailable c then (c, st)
      else
        let st2 := { st with clients := st.clients.filter (fun p => !(p.1 == addr)) }
        let r := xDial st2
        (r.1, { r.2 with clients := (addr, r.1) :: r.2.clients })
  | none =>
      let r := xDial st
      (r.1, { r.2 with clients := (addr, r.1) :: r.2.clients })

/-- Embedding of `XClient.call` as implemented: its body runs
`client, err := XDial(rpcAddr)` — a fresh dial on every invocation that
neither consults nor updates the client cache (and passes no option). -/
def xcCallClient (st : XClientState) (addr : String) : CachedClient × XClientState :=
  xDial st

/-- C1 evaluated at the failing input: with an available client (id 7)
cached for the chosen address, the XClient.Call path dials a brand-new
client (id 42, the next fresh one) and leaves the cache map untouched,
whereas the cached-map logic of xc.dial — dead code on the Call path —
would have reused client 7. -/
theorem xclient_call_ignores_cache :
    (xcCallClient ⟨[("tcp@a", ⟨7, false, false⟩)], 42⟩ "tcp@a").1
      = ⟨42, false, false⟩ ∧
    (xcCallClient ⟨[("tcp@a", ⟨7, false, false⟩)], 42⟩ "tcp@a").2.clients
      = [("tcp@a", ⟨7, false, false⟩)] ∧
    cachedIsAvailable ⟨7, false, false⟩ = true ∧
    (xcDial ⟨[("tcp@a", ⟨7, false, false⟩)], 42⟩ "tcp@a").1 = ⟨7, false, false⟩ ∧
    (xcDial ⟨[("tcp@a", ⟨7, false, false⟩)], 42⟩ "tcp@a").2
      = ⟨[("tcp@a", ⟨7, false, false⟩)], 42⟩ := by
  decide

end RPC
